import Mathlib

/-!
Verification of the Armada Lookout hierarchical job table state engine and the
job detail side-panel.

The side-panel (tab enablement, resize bounds) is embedded directly from
`internal/lookout/ui/src/components/lookoutV2/sidebar/Sidebar.tsx`.

The table state engine itself (query-param codec, table state machine, row tree
resolver, selection/bulk-action coordinator) is exercised by the repository's
test suite but its implementation source is not part of the repository snapshot;
those components are modelled from the specification, as marked on each
definition.
-/

namespace Armada

/-- Strings are modelled as lists of characters. -/
abbrev Str := List Char

/-- Job lifecycle states, from the spec's data model (section 3). -/
inductive JobState
  | queued
  | pending
  | running
  | succeeded
  | failed
  | cancelled
  | preempted
deriving DecidableEq

/-- Modelled from the spec: glossary "Terminal state: a job lifecycle state
(Succeeded/Failed/Cancelled/Preempted) after which no further mutation (cancel)
is meaningful". -/
def isTerminal : JobState → Bool
  | .succeeded => true
  | .failed => true
  | .cancelled => true
  | .preempted => true
  | _ => false

/-- Display name of a job state, as used for the groupable "state" column. -/
def jobStateToStr : JobState → Str
  | .queued => "Queued".data
  | .pending => "Pending".data
  | .running => "Running".data
  | .succeeded => "Succeeded".data
  | .failed => "Failed".data
  | .cancelled => "Cancelled".data
  | .preempted => "Preempted".data

/-- Modelled from the spec: a Job record (section 3), restricted to the fields
the claims exercise (identifier, queue, job set, lifecycle state, and the
open-ended user-supplied key/value mapping). -/
structure Job where
  jobId : Str
  queue : Str
  jobSet : Str
  state : JobState
  anns : List (Str × Str)
deriving DecidableEq

/-- First-match lookup in an association list of strings. -/
def lookupP (k : Str) : List (Str × Str) → Option Str
  | [] => none
  | kv :: rest => if kv.1 = k then some kv.2 else lookupP k rest

def jobIdCol : Str := "jobId".data

def queueCol : Str := "queue".data

def jobSetCol : Str := "jobSet".data

def stateCol : Str := "state".data

/-- The displayable/groupable/filterable value of a column for a given job.
Unknown column keys are treated as keys of the user-supplied mapping. -/
def jobValue (col : Str) (j : Job) : Str :=
  if col = jobIdCol then j.jobId
  else if col = queueCol then j.queue
  else if col = jobSetCol then j.jobSet
  else if col = stateCol then jobStateToStr j.state
  else (lookupP col j.anns).getD []

/-- Modelled from the spec: the filter match kinds (free-text exact, text
starts-with and substring match, section 3). -/
inductive MatchKind
  | exact
  | startsWith
  | containsText
deriving DecidableEq

/-- Modelled from the spec: a Filter is a triple (column key, match kind,
value), at most one per column (section 3). -/
structure JobFilter where
  col : Str
  kind : MatchKind
  value : Str
deriving DecidableEq

/-- Whether a single filter entry accepts a job. -/
def matchesFilter (f : JobFilter) (j : Job) : Bool :=
  match f.kind with
  | .exact => decide (jobValue f.col j = f.value)
  | .startsWith => decide (f.value <+: jobValue f.col j)
  | .containsText => decide (f.value <:+: jobValue f.col j)

/-- Whether every active filter accepts a job. -/
def matchesFilters (fs : List JobFilter) (j : Job) : Bool :=
  fs.all (fun f => matchesFilter f j)

/-- Jobs of a collection accepted by every active filter. -/
def filterJobs (fs : List JobFilter) (db : List Job) : List Job :=
  db.filter (fun j => matchesFilters fs j)

/-- Modelled from the spec: a group path is the ordered sequence of
(column key, value) pairs from the outermost grouping level down to one group
node (glossary). -/
abbrev GroupPath := List (Str × Str)

/-- Modelled from the spec: a selection key is either a job identifier or a
group path (glossary). -/
inductive SelKey
  | jobKey (id : Str)
  | groupKey (p : GroupPath)
deriving DecidableEq

/-- Modelled from the spec: the TableState aggregate (section 3): pagination,
single sort, ordered grouping keys, ordered filters, expansion set, selection
set, and the active detail job reference. -/
structure TableState where
  page : Nat
  pageSize : Nat
  sortId : Str
  sortDesc : Bool
  grouping : List Str
  filters : List JobFilter
  expanded : List GroupPath
  selected : List SelKey
  sidebarJobId : Option Str
deriving DecidableEq

/-- Modelled from the spec: the default state on first load - page 0, default
page size, default sort (job id, descending), no grouping, no filters, nothing
expanded, nothing selected, no detail open (section 6). -/
def initialState : TableState :=
  ⟨0, 50, jobIdCol, true, [], [], [], [], none⟩

/-- Decimal digit to character. -/
def digitToChar : Nat → Char
  | 0 => '0'
  | 1 => '1'
  | 2 => '2'
  | 3 => '3'
  | 4 => '4'
  | 5 => '5'
  | 6 => '6'
  | 7 => '7'
  | 8 => '8'
  | _ => '9'

/-- Character to decimal digit, failing on non-digits. -/
def charToDigit? (c : Char) : Option Nat :=
  if c = '0' then some 0
  else if c = '1' then some 1
  else if c = '2' then some 2
  else if c = '3' then some 3
  else if c = '4' then some 4
  else if c = '5' then some 5
  else if c = '6' then some 6
  else if c = '7' then some 7
  else if c = '8' then some 8
  else if c = '9' then some 9
  else none

/-- Decimal rendering of a natural number, with explicit fuel (the fuel is an
upper bound on the number; recursion is on the fuel so that the definition is
structural). -/
def natToStrAux : Nat → Nat → Str
  | 0, _ => []
  | fuel + 1, n => if n = 0 then [] else natToStrAux fuel (n / 10) ++ [digitToChar (n % 10)]

/-- Decimal rendering of a natural number. -/
def natToStr (n : Nat) : Str :=
  if n = 0 then ['0'] else natToStrAux n n

/-- Left-to-right accumulating decimal parser. -/
def strToNatAux : Nat → Str → Option Nat
  | acc, [] => some acc
  | acc, c :: rest =>
    match charToDigit? c with
    | some d => strToNatAux (acc * 10 + d) rest
    | none => none

/-- Decimal parser; fails on the empty string and on any non-digit. -/
def strToNat? (s : Str) : Option Nat :=
  match s with
  | [] => none
  | _ :: _ => strToNatAux 0 s

/-- Boolean rendering used by the query-param codec. -/
def boolToStr : Bool → Str
  | true => "true".data
  | false => "false".data

/-- Characters reserved by the group-path encoding. -/
def escChar (c : Char) : Bool :=
  decide (c = ':') || decide (c = '>') || decide (c = '%')

/-- Modelled from the spec: group-path components must be escaped so that
column values containing delimiter characters stay unambiguous (section 4.1).
Reserved characters are prefixed with a percent sign. -/
def escape : Str → Str
  | [] => []
  | c :: rest => if escChar c then '%' :: c :: escape rest else c :: escape rest

/-- Inverse of `escape`: a percent sign takes the following character
literally. -/
def unescape : Str → Str
  | [] => []
  | [c] => [c]
  | c :: d :: rest => if c = '%' then d :: unescape rest else c :: unescape (d :: rest)

/-- Split a string at the first occurrence of an unescaped delimiter, returning
the part before it and (when the delimiter occurs) the rest after it. -/
def splitEsc (d : Char) : Str → Str × Option Str
  | [] => ([], none)
  | [c] => if c = d then ([], some []) else ([c], none)
  | c :: e :: rest =>
    if c = '%' then
      ('%' :: e :: (splitEsc d rest).1, (splitEsc d rest).2)
    else if c = d then ([], some (e :: rest))
    else (c :: (splitEsc d (e :: rest)).1, (splitEsc d (e :: rest)).2)

/-- Split a string at every unescaped delimiter; the fuel bounds the number of
delimiters and makes the recursion structural. -/
def splitAllEscF (d : Char) : Nat → Str → List Str
  | 0, s => [s]
  | fuel + 1, s =>
    match splitEsc d s with
    | (a, none) => [a]
    | (a, some rest) => a :: splitAllEscF d fuel rest

/-- Split a string at every unescaped delimiter. -/
def splitAllEsc (d : Char) (s : Str) : List Str :=
  splitAllEscF d s.length s

/-- Join path segments with the level delimiter. -/
def joinGt : List Str → Str
  | [] => []
  | [x] => x
  | x :: y :: rest => x ++ '>' :: joinGt (y :: rest)

/-- One (column key, value) pair of a group path, escaped and joined with the
reserved pair delimiter. -/
def encodePair (kv : Str × Str) : Str :=
  escape kv.1 ++ ':' :: escape kv.2

/-- Modelled from the spec: a group-path descriptor encodes the full prefix
chain, column/value pairs joined with reserved delimiters, values escaped
(section 4.1). -/
def encodePath (p : GroupPath) : Str :=
  joinGt (p.map encodePair)

/-- Decode one escaped (column key, value) pair; fails closed. -/
def decodePair (s : Str) : Option (Str × Str) :=
  match splitAllEsc ':' s with
  | [a, b] => some (unescape a, unescape b)
  | _ => none

/-- Decode a group-path descriptor; fails closed. -/
def decodePath (s : Str) : Option GroupPath :=
  (splitAllEsc '>' s).mapM decodePair

/-- Rendering of a match kind in the query string. -/
def matchKindToStr : MatchKind → Str
  | .exact => "exact".data
  | .startsWith => "startsWith".data
  | .containsText => "contains".data

/-- Parser of a match kind; fails closed on unknown kinds. -/
def strToMatchKind? (s : Str) : Option MatchKind :=
  if s = "exact".data then some .exact
  else if s = "startsWith".data then some .startsWith
  else if s = "contains".data then some .containsText
  else none

def pageKey : Str := ['p', 'a', 'g', 'e']

def psKey : Str := ['p', 'S']

def sortIdKey : Str := ['s', 'o', 'r', 't', '[', 'i', 'd', ']']

def sortDescKey : Str := ['s', 'o', 'r', 't', '[', 'd', 'e', 's', 'c', ']']

def sbKey : Str := ['s', 'b']

/-- Indexed parameter name for the ordered grouping-key list. -/
def gKey (i : Nat) : Str :=
  'g' :: '[' :: (natToStr i ++ [']'])

/-- Indexed parameter name for the ordered expanded-group-path list. -/
def eKey (i : Nat) : Str :=
  'e' :: '[' :: (natToStr i ++ [']'])

/-- Indexed parameter name for a filter descriptor's column. -/
def fcKey (i : Nat) : Str :=
  'f' :: 'c' :: '[' :: (natToStr i ++ [']'])

/-- Indexed parameter name for a filter descriptor's match kind. -/
def fmKey (i : Nat) : Str :=
  'f' :: 'm' :: '[' :: (natToStr i ++ [']'])

/-- Indexed parameter name for a filter descriptor's value. -/
def fvKey (i : Nat) : Str :=
  'f' :: 'v' :: '[' :: (natToStr i ++ [']'])

/-- Parameters of the ordered grouping-key list. -/
def gSection : Nat → List Str → List (Str × Str)
  | _, [] => []
  | i, g :: rest => (gKey i, g) :: gSection (i + 1) rest

/-- Parameters of the ordered filter-descriptor list. -/
def fSection : Nat → List JobFilter → List (Str × Str)
  | _, [] => []
  | i, f :: rest =>
    (fcKey i, f.col) :: (fmKey i, matchKindToStr f.kind) :: (fvKey i, f.value) :: fSection (i + 1) rest

/-- Parameters of the ordered expanded-group-path list. -/
def eSection : Nat → List GroupPath → List (Str × Str)
  | _, [] => []
  | i, p :: rest => (eKey i, encodePath p) :: eSection (i + 1) rest

/-- Parameter for the active detail job id, absent when no detail is open. -/
def sbSection : Option Str → List (Str × Str)
  | none => []
  | some id => [(sbKey, id)]

/-- Modelled from the spec: the Query-Param Codec's encoder (section 4.1). A
query string is modelled as its parsed, order-preserving key/value parameter
list. Each structural field gets its own parameter namespace: page index, page
size, sort column and direction, the ordered grouping keys, the ordered filter
descriptors, the ordered expanded-group-path descriptors, and the active detail
job id if any. The Selection Set has no namespace in the URL contract
(sections 4.1 and 6). -/
def encode (s : TableState) : List (Str × Str) :=
  (pageKey, natToStr s.page) ::
    (psKey, natToStr s.pageSize) ::
      (sortIdKey, s.sortId) ::
        (sortDescKey, boolToStr s.sortDesc) ::
          (gSection 0 s.grouping ++ fSection 0 s.filters ++ eSection 0 s.expanded ++
            sbSection s.sidebarJobId)

/-- Read consecutive indexed parameters 0, 1, 2, ... until one is absent or
malformed; the fuel bounds the number of indices tried and makes the recursion
structural. -/
def collectIdx {α : Type} (f : Nat → Option α) : Nat → Nat → List α
  | 0, _ => []
  | fuel + 1, i =>
    match f i with
    | none => []
    | some a => a :: collectIdx f fuel (i + 1)

/-- Decode the i-th filter descriptor from its three parameters; fails closed
when any of the three is absent or the match kind is unknown. -/
def decodeFilterAt (params : List (Str × Str)) (i : Nat) : Option JobFilter :=
  match lookupP (fcKey i) params, lookupP (fmKey i) params, lookupP (fvKey i) params with
  | some c, some m, some v =>
    match strToMatchKind? m with
    | some mk => some ⟨c, mk, v⟩
    | none => none
  | _, _, _ => none

/-- Decode a natural-number parameter, with a default for absent or malformed
values. -/
def decodeNatParam (params : List (Str × Str)) (k : Str) (dflt : Nat) : Nat :=
  match (lookupP k params).bind strToNat? with
  | some n => n
  | none => dflt

/-- Decode a boolean parameter, with a default for absent or malformed
values. -/
def decodeBoolParam (params : List (Str × Str)) (k : Str) (dflt : Bool) : Bool :=
  match lookupP k params with
  | none => dflt
  | some v =>
    if v = boolToStr true then true else if v = boolToStr false then false else dflt

/-- Modelled from the spec: the Query-Param Codec's decoder (section 4.1).
Absent parameters mean defaults; unknown or malformed fragments are ignored,
not fatal (section 6). Selection has no parameter namespace, so a decoded
state always carries an empty Selection Set. -/
def decode (params : List (Str × Str)) : TableState :=
  { page := decodeNatParam params pageKey 0
    pageSize := decodeNatParam params psKey 50
    sortId := (lookupP sortIdKey params).getD jobIdCol
    sortDesc := decodeBoolParam params sortDescKey true
    grouping := collectIdx (fun i => lookupP (gKey i) params) params.length 0
    filters := collectIdx (fun i => decodeFilterAt params i) params.length 0
    expanded := collectIdx (fun i => (lookupP (eKey i) params).bind decodePath) params.length 0
    selected := []
    sidebarJobId := lookupP sbKey params }

/-- Boolean prefix test on group paths. -/
def isPre : GroupPath → GroupPath → Bool
  | [], _ => true
  | _ :: _, [] => false
  | a :: as, b :: bs => decide (a = b) && isPre as bs

/-- Modelled from the spec: the reducer precondition violation raised when an
expansion toggle addresses a path whose parent is not expanded (section 7). -/
inductive TableError
  | invalidExpansionPath
deriving DecidableEq

/-- Modelled from the spec: `setGrouping` replaces the grouping sequence,
clears the Expansion Set and the Selection Set entirely and resets pagination
to page 0 (section 4.2). -/
def setGrouping (g : List Str) (s : TableState) : TableState :=
  { s with grouping := g, expanded := [], selected := [], page := 0 }

/-- Modelled from the spec: `toggleExpand` adds or removes a path from the
Expansion Set; collapsing a path also removes all paths that have it as a
prefix; toggling a path whose parent is not itself expanded fails with an
`InvalidExpansionPath` condition (sections 4.2 and 7). -/
def toggleExpand (p : GroupPath) (s : TableState) : Except TableError TableState :=
  if p ≠ [] ∧ (p.dropLast = [] ∨ p.dropLast ∈ s.expanded) then
    .ok
      { s with
        expanded :=
          if p ∈ s.expanded then s.expanded.filter (fun q => !isPre p q)
          else s.expanded ++ [p] }
  else .error .invalidExpansionPath

/-- Modelled from the spec: `setFilter` replaces the filter entry for the
filtered column and resets pagination to page 0 (section 4.2). -/
def setFilter (f : JobFilter) (s : TableState) : TableState :=
  { s with filters := s.filters.filter (fun f0 => decide (f0.col ≠ f.col)) ++ [f], page := 0 }

/-- Modelled from the spec: `clearFilter` removes the filter entry for the
column and resets pagination to page 0 (section 4.2). -/
def clearFilter (col : Str) (s : TableState) : TableState :=
  { s with filters := s.filters.filter (fun f0 => decide (f0.col ≠ col)), page := 0 }

/-- Modelled from the spec: `setSort` replaces the single sort (section 4.2). -/
def setSort (col : Str) (desc : Bool) (s : TableState) : TableState :=
  { s with sortId := col, sortDesc := desc }

/-- Modelled from the spec: `setPage` is a pure pagination change
(section 4.2). -/
def setPage (i : Nat) (s : TableState) : TableState :=
  { s with page := i }

/-- Modelled from the spec: `setPageSize` resets the page to 0 (section 4.2). -/
def setPageSize (n : Nat) (s : TableState) : TableState :=
  { s with pageSize := n, page := 0 }

/-- Modelled from the spec: `toggleSelect` adds or removes one selection key
(section 4.2). -/
def toggleSelect (k : SelKey) (s : TableState) : TableState :=
  { s with
    selected :=
      if k ∈ s.selected then s.selected.filter (fun k0 => decide (k0 ≠ k))
      else s.selected ++ [k] }

/-- Modelled from the spec: `clearSelection` (section 4.2). -/
def clearSelection (s : TableState) : TableState :=
  { s with selected := [] }

/-- Modelled from the spec: `openDetail` (section 4.2). -/
def openDetail (id : Str) (s : TableState) : TableState :=
  { s with sidebarJobId := some id }

/-- Modelled from the spec: `closeDetail` (section 4.2). -/
def closeDetail (s : TableState) : TableState :=
  { s with sidebarJobId := none }

/-- One user intent, dispatched to the matching reducer. -/
inductive TableAction
  | setGroupingA (g : List Str)
  | toggleExpandA (p : GroupPath)
  | setFilterA (f : JobFilter)
  | clearFilterA (col : Str)
  | setSortA (col : Str) (desc : Bool)
  | setPageA (i : Nat)
  | setPageSizeA (n : Nat)
  | toggleSelectA (k : SelKey)
  | clearSelectionA
  | openDetailA (id : Str)
  | closeDetailA

/-- The orchestrator's transition: apply the matching reducer; a rejected
expansion toggle leaves the state unchanged. -/
def step (a : TableAction) (s : TableState) : TableState :=
  match a with
  | .setGroupingA g => setGrouping g s
  | .toggleExpandA p =>
    match toggleExpand p s with
    | .ok s1 => s1
    | .error _ => s
  | .setFilterA f => setFilter f s
  | .clearFilterA col => clearFilter col s
  | .setSortA col desc => setSort col desc s
  | .setPageA i => setPage i s
  | .setPageSizeA n => setPageSize n s
  | .toggleSelectA k => toggleSelect k s
  | .clearSelectionA => clearSelection s
  | .openDetailA id => openDetail id s
  | .closeDetailA => closeDetail s

/-- A table state reachable from the initial state by user actions. -/
inductive Reachable : TableState → Prop
  | init : Reachable initialState
  | next (a : TableAction) (s : TableState) (h : Reachable s) : Reachable (step a s)

/-- Expansion monotonicity: every member of the Expansion Set has all of its
proper nonempty prefixes in the Expansion Set as well. -/
def expansionInv (s : TableState) : Prop :=
  ∀ p ∈ s.expanded, ∀ q : GroupPath, q <+: p → q ≠ [] → q ≠ p → q ∈ s.expanded

/-- Strict lexicographic comparison of strings. -/
def strLt : Str → Str → Bool
  | [], [] => false
  | [], _ :: _ => true
  | _ :: _, [] => false
  | a :: as, b :: bs => if a < b then true else if b < a then false else strLt as bs

/-- Value a job is sorted by. -/
def sortValue (sortId : Str) (j : Job) : Str :=
  jobValue sortId j

/-- The sort predicate derived from the single (column, direction) sort. -/
def jobLe (sortId : Str) (desc : Bool) (a b : Job) : Bool :=
  if desc then !strLt (sortValue sortId a) (sortValue sortId b)
  else !strLt (sortValue sortId b) (sortValue sortId a)

/-- Insertion step of the stable sort. -/
def insertJob (le : Job → Job → Bool) (j : Job) : List Job → List Job
  | [] => [j]
  | k :: rest => if le j k then j :: k :: rest else k :: insertJob le j rest

/-- Insertion sort of the job list under the chosen predicate. -/
def sortJobsBy (le : Job → Job → Bool) : List Job → List Job
  | [] => []
  | j :: rest => insertJob le j (sortJobsBy le rest)

/-- Sort a job list by the state's single sort key and direction. -/
def sortJobs (sortId : Str) (desc : Bool) (l : List Job) : List Job :=
  sortJobsBy (jobLe sortId desc) l

/-- A displayed row: either a job row or a group node row carrying its
aggregate count (section 3). -/
inductive Row
  | jobRow (depth : Nat) (j : Job)
  | groupRow (depth : Nat) (col : Str) (value : Str) (count : Nat)
deriving DecidableEq

/-- Modelled from the spec: the reported total distinguishes an exact count
from a lower-bound count and is never collapsed to a plain integer
(sections 4.3 and 9). -/
inductive TotalCount
  | exact (n : Nat)
  | atLeast (n : Nat)
deriving DecidableEq

/-- The distinct values of a column over a scope of jobs (each group value
listed once). -/
def uniqVals : List Str → List Str
  | [] => []
  | v :: rest => if v ∈ uniqVals rest then uniqVals rest else v :: uniqVals rest

/-- The distinct values of the grouped column over a scope. -/
def groupValues (g : Str) (scope : List Job) : List Str :=
  uniqVals (scope.map (jobValue g))

/-- Modelled from the spec: the backend may cap counting cost, so a page that
is followed by further rows reports a lower bound while the final page reports
the exact total (sections 4.3 and 8). -/
def totalFor (page pageSize n : Nat) : TotalCount :=
  if (page + 1) * pageSize < n then .atLeast ((page + 1) * pageSize) else .exact n

/-- Modelled from the spec: recursive resolution of the levels below the
outermost one (section 4.3). Children of an expanded group are fetched in
full, never paginated; when grouping levels remain the children are group
nodes, otherwise they are the scope's job rows. -/
def resolveLevel (expanded : List GroupPath) :
    List Str → GroupPath → Nat → List Job → List Row
  | [], _, depth, scope => scope.map (Row.jobRow depth)
  | g :: rest, path, depth, scope =>
    (groupValues g scope).flatMap (fun v =>
      Row.groupRow depth g v (scope.filter (fun j => decide (jobValue g j = v))).length ::
        (if path ++ [(g, v)] ∈ expanded then
          resolveLevel expanded rest (path ++ [(g, v)]) (depth + 1)
            (scope.filter (fun j => decide (jobValue g j = v)))
        else []))

/-- Modelled from the spec: the Row Tree Resolver (section 4.3). With no
grouping one paginated flat query produces job rows at depth 0; with grouping
one paginated query on the outermost column produces group rows at depth 0,
and every expanded group is recursively resolved in full and spliced directly
after its parent. Pagination applies only to the outermost level. -/
def resolve (db : List Job) (s : TableState) : List Row × TotalCount :=
  match s.grouping with
  | [] =>
    (((sortJobs s.sortId s.sortDesc (filterJobs s.filters db)).drop
          (s.page * s.pageSize)).take s.pageSize |>.map (Row.jobRow 0),
      totalFor s.page s.pageSize (sortJobs s.sortId s.sortDesc (filterJobs s.filters db)).length)
  | g :: rest =>
    (((groupValues g (sortJobs s.sortId s.sortDesc (filterJobs s.filters db))).drop
          (s.page * s.pageSize)).take s.pageSize |>.flatMap (fun v =>
        Row.groupRow 0 g v
            ((sortJobs s.sortId s.sortDesc (filterJobs s.filters db)).filter
              (fun j => decide (jobValue g j = v))).length ::
          (if [(g, v)] ∈ s.expanded then
            resolveLevel s.expanded rest [(g, v)] 1
              ((sortJobs s.sortId s.sortDesc (filterJobs s.filters db)).filter
                (fun j => decide (jobValue g j = v)))
          else [])),
      totalFor s.page s.pageSize
        (groupValues g (sortJobs s.sortId s.sortDesc (filterJobs s.filters db))).length)

/-- The displayed range-and-total text, for example "1-50 of more than 50". -/
def totalText (first last : Nat) (t : TotalCount) : Str :=
  natToStr first ++ "–".data ++ natToStr last ++
    (match t with
     | .exact n => " of ".data ++ natToStr n
     | .atLeast n => " of more than ".data ++ natToStr n)

/-- Whether a job lies under a group path (every (column, value) pair of the
path matches the job). -/
def pathMatches (p : GroupPath) (j : Job) : Bool :=
  p.all (fun kv => decide (jobValue kv.1 j = kv.2))

/-- The exact-match filters equivalent to scoping a query to a group path. -/
def pathFilters (p : GroupPath) : List JobFilter :=
  p.map (fun kv => ⟨kv.1, .exact, kv.2⟩)

/-- Modelled from the spec: the Selection and Bulk-Action Coordinator resolves
a selected group path by issuing one additional query scoped to that group's
path and counting the non-terminal jobs under it; terminal-state jobs are
excluded from the cancel-eligible count (sections 4.4 and 8). -/
def groupCancelCount (db : List Job) (p : GroupPath) : Nat :=
  ((filterJobs (pathFilters p) db).filter (fun j => !isTerminal j.state)).length

/-- The orchestrator's view: the authoritative table state plus the derived
rows and total, which are never authoritative themselves. -/
structure ViewState where
  table : TableState
  rows : List Row
  total : TotalCount
deriving DecidableEq

/-- Modelled from the spec: a refresh re-resolves the rows from the unchanged
authoritative table state; derived data is recomputed, never fed back into the
state (sections 2 and 8). -/
def refresh (db : List Job) (v : ViewState) : ViewState :=
  { table := v.table, rows := (resolve db v.table).1, total := (resolve db v.table).2 }

/-- The five tabs of the job detail side-panel (Sidebar.tsx). -/
inductive SidebarTab
  | jobDetails
  | jobResult
  | yaml
  | logs
  | commands
deriving DecidableEq

/-- From Sidebar.tsx: the Logs and Commands tabs carry
`disabled={job.state === JobState.Queued}`; the other tabs have no disabled
property. -/
def tabDisabled (t : SidebarTab) (st : JobState) : Bool :=
  match t with
  | .logs => decide (st = .queued)
  | .commands => decide (st = .queued)
  | _ => false

/-- From Sidebar.tsx `handleMouseMove`: when resizing, the prospective width is
`document.body.offsetWidth - (x - document.body.offsetLeft)`, and
`onWidthChange` is called exactly when it lies strictly between 350 and 1920;
the returned value is the width passed to the callback, `none` when the
callback is not invoked. -/
def handleMouseMove (resizing : Bool) (bodyWidth bodyLeft x : Int) : Option Int :=
  if resizing then
    if 350 < bodyWidth - (x - bodyLeft) ∧ bodyWidth - (x - bodyLeft) < 1920 then
      some (bodyWidth - (x - bodyLeft))
    else none
  else none

/-- The sidebar width reported after a mouse move: changed only when the
callback fires. -/
def widthAfter (resizing : Bool) (bodyWidth bodyLeft x w : Int) : Int :=
  match handleMouseMove resizing bodyWidth bodyLeft x with
  | some v => v
  | none => w

/-- A job literal for concrete examples. -/
def mkJob (id q js : Str) (st : JobState) : Job :=
  ⟨id, q, js, st, []⟩

/-- Sixty distinct jobs, for the pagination example of the test suite. -/
def db60 : List Job :=
  (List.range 60).map (fun i => mkJob (natToStr i) ("q".data) ("js".data) .queued)

/-- The ungrouped, unfiltered state sorted ascending by job id with page size
50, at the given page index. -/
def c2State (p : Nat) : TableState :=
  ⟨p, 50, jobIdCol, false, [], [], [], [], none⟩

/-- A state on page 0 with the given grouping, expansion set and page size. -/
def groupedState (g : List Str) (e : List GroupPath) (pS : Nat) : TableState :=
  ⟨0, pS, jobIdCol, true, g, [], e, [], none⟩

/-- The number of distinct values of a column over a job collection. -/
def distinctCount (c : Str) (db : List Job) : Nat :=
  (uniqVals (db.map (jobValue c))).length

/-- The number of jobs of a collection carrying one given value of a column. -/
def groupSize (c v0 : Str) (db : List Job) : Nat :=
  (db.filter (fun j => decide (jobValue c j = v0))).length

/-- Three jobs over two queues and two job sets, for small concrete checks. -/
def dbW3 : List Job :=
  [mkJob ['1'] ['a'] ['x'] .queued,
   mkJob ['2'] ['a'] ['y'] .running,
   mkJob ['3'] ['b'] ['x'] .pending]

/-- A queue filter matching the two jobs of queue a. -/
def fW5 : JobFilter :=
  ⟨queueCol, .startsWith, ['a']⟩

/-- A filtered state whose page size is smaller than the matching row count. -/
def sC5 : TableState :=
  setFilter fW5 (setPageSize 1 initialState)

def q1Str : Str := "queue-1".data

def js1Str : Str := "job-set-1".data

def js2Str : Str := "job-set-2".data

/-- Three thousand non-terminal jobs under one queue, split
Queued/Pending/Running, as in the test suite's bulk-cancel scenario. -/
def db3000 : List Job :=
  List.replicate 500 (mkJob ['a'] q1Str js1Str .queued) ++
    List.replicate 1000 (mkJob ['b'] q1Str js1Str .pending) ++
      List.replicate 1500 (mkJob ['c'] q1Str js2Str .running)

/-- A reachable state with a grouping and one expanded group. -/
def sW1 : TableState :=
  step (.toggleExpandA [(queueCol, ['a'])]) (step (.setGroupingA [queueCol]) initialState)

/-- A reachable state with one selected job. -/
def sC1 : TableState :=
  step (.toggleSelectA (.jobKey ['a'])) initialState

/-- A two-level group path whose parent is not expanded in the initial state. -/
def pW7 : GroupPath :=
  [(queueCol, ['a']), (jobSetCol, ['b'])]

theorem charToDigit?_digitToChar (d : Nat) (h : d < 10) :
    charToDigit? (digitToChar d) = some d := by
  interval_cases d <;> rfl

theorem strToNatAux_append (s t : Str) : ∀ acc,
    strToNatAux acc (s ++ t) =
      match strToNatAux acc s with
      | some a => strToNatAux a t
      | none => none := by
  induction s with
  | nil => intro acc; rfl
  | cons c rest ih =>
    intro acc
    cases h : charToDigit? c with
    | none => simp [strToNatAux, h]
    | some d => simp [strToNatAux, h, ih]

theorem natToStrAux_spec : ∀ fuel n acc, n ≤ fuel →
    strToNatAux acc (natToStrAux fuel n) =
      some (acc * 10 ^ (natToStrAux fuel n).length + n) := by
  intro fuel
  induction fuel with
  | zero =>
    intro n acc h
    interval_cases n
    simp [natToStrAux, strToNatAux]
  | succ f ih =>
    intro n acc h
    by_cases hn : n = 0
    · subst hn; simp [natToStrAux, strToNatAux]
    · have hlt : n / 10 < n := Nat.div_lt_self (Nat.pos_of_ne_zero hn) (by norm_num)
      have hdiv : n / 10 ≤ f := by omega
      have h10 : n % 10 < 10 := Nat.mod_lt _ (by norm_num)
      rw [natToStrAux, if_neg hn, strToNatAux_append, ih (n / 10) acc hdiv]
      have hdm := Nat.div_add_mod n 10
      simp [strToNatAux, charToDigit?_digitToChar _ h10, Nat.pow_succ]
      ring_nf
      omega

theorem natToStrAux_ne_nil (fuel n : Nat) (h0 : 0 < n) (h : n ≤ fuel) :
    natToStrAux fuel n ≠ [] := by
  cases fuel with
  | zero => omega
  | succ f =>
    rw [natToStrAux, if_neg (by omega)]
    simp

theorem strToNat?_natToStr (n : Nat) : strToNat? (natToStr n) = some n := by
  by_cases hn : n = 0
  · subst hn; rfl
  · rw [natToStr, if_neg hn]
    have hne := natToStrAux_ne_nil n n (Nat.pos_of_ne_zero hn) le_rfl
    have hs := natToStrAux_spec n n 0 le_rfl
    simp only [Nat.zero_mul, Nat.zero_add] at hs
    cases h : natToStrAux n n with
    | nil => exact absurd h hne
    | cons c r =>
      rw [h] at hs
      exact hs

theorem natToStr_inj {i j : Nat} (h : natToStr i = natToStr j) : i = j := by
  have hi := strToNat?_natToStr i
  rw [h, strToNat?_natToStr j] at hi
  exact (Option.some.inj hi).symm

theorem natBr_inj {i j : Nat} (h : natToStr i ++ [']'] = natToStr j ++ [']']) : i = j :=
  natToStr_inj (List.append_cancel_right h)

theorem ne_of_head {a b : Char} {as bs : Str} (h : a ≠ b) : a :: as ≠ b :: bs := by
  intro he
  injection he with h1 _
  exact h h1

theorem ne_of_head2 {a b c d : Char} {as bs : Str} (h : b ≠ d) :
    a :: b :: as ≠ c :: d :: bs := by
  intro he
  injection he with _ h2
  injection h2 with h3 _
  exact h h3

theorem gKey_inj {i j : Nat} (h : gKey i = gKey j) : i = j := by
  rw [gKey, gKey] at h
  injection h with _ h2
  injection h2 with _ h3
  exact natBr_inj h3

theorem eKey_inj {i j : Nat} (h : eKey i = eKey j) : i = j := by
  rw [eKey, eKey] at h
  injection h with _ h2
  injection h2 with _ h3
  exact natBr_inj h3

theorem fcKey_inj {i j : Nat} (h : fcKey i = fcKey j) : i = j := by
  rw [fcKey, fcKey] at h
  injection h with _ h2
  injection h2 with _ h3
  injection h3 with _ h4
  exact natBr_inj h4

theorem fmKey_inj {i j : Nat} (h : fmKey i = fmKey j) : i = j := by
  rw [fmKey, fmKey] at h
  injection h with _ h2
  injection h2 with _ h3
  injection h3 with _ h4
  exact natBr_inj h4

theorem fvKey_inj {i j : Nat} (h : fvKey i = fvKey j) : i = j := by
  rw [fvKey, fvKey] at h
  injection h with _ h2
  injection h2 with _ h3
  injection h3 with _ h4
  exact natBr_inj h4

theorem lookupP_append (k : Str) (l1 l2 : List (Str × Str)) :
    lookupP k (l1 ++ l2) =
      match lookupP k l1 with
      | some v => some v
      | none => lookupP k l2 := by
  induction l1 with
  | nil => rfl
  | cons kv rest ih =>
    by_cases h : kv.1 = k
    · simp [lookupP, h]
    · simp [lookupP, h, ih]

theorem lookupP_gSection_none {k : Str} (h : ∀ i, gKey i ≠ k) :
    ∀ n l, lookupP k (gSection n l) = none := by
  intro n l
  induction l generalizing n with
  | nil => rfl
  | cons a rest ih => simp [gSection, lookupP, h n, ih]

theorem lookupP_fSection_none {k : Str}
    (h : ∀ i, fcKey i ≠ k ∧ fmKey i ≠ k ∧ fvKey i ≠ k) :
    ∀ n l, lookupP k (fSection n l) = none := by
  intro n l
  induction l generalizing n with
  | nil => rfl
  | cons a rest ih =>
    simp [fSection, lookupP, (h n).1, (h n).2.1, (h n).2.2, ih]

theorem lookupP_eSection_none {k : Str} (h : ∀ i, eKey i ≠ k) :
    ∀ n l, lookupP k (eSection n l) = none := by
  intro n l
  induction l generalizing n with
  | nil => rfl
  | cons a rest ih => simp [eSection, lookupP, h n, ih]

theorem lookupP_sbSection_none {k : Str} (h : sbKey ≠ k) :
    ∀ o, lookupP k (sbSection o) = none := by
  intro o
  cases o with
  | none => rfl
  | some v => simp [sbSection, lookupP, h]

theorem lookupP_gSection (l : List Str) : ∀ n i,
    lookupP (gKey (n + i)) (gSection n l) = l[i]? := by
  induction l with
  | nil => intro n i; rfl
  | cons a rest ih =>
    intro n i
    cases i with
    | zero => simp [gSection, lookupP]
    | succ i =>
      have h2 : n + (i + 1) = n + 1 + i := by omega
      have hne : gKey n ≠ gKey (n + 1 + i) := by
        intro he
        have := gKey_inj he
        omega
      rw [h2]
      simp only [gSection, lookupP, if_neg hne, List.getElem?_cons_succ]
      exact ih (n + 1) i

theorem lookupP_eSection (l : List GroupPath) : ∀ n i,
    lookupP (eKey (n + i)) (eSection n l) = (l[i]?).map encodePath := by
  induction l with
  | nil => intro n i; rfl
  | cons a rest ih =>
    intro n i
    cases i with
    | zero => simp [eSection, lookupP]
    | succ i =>
      have h2 : n + (i + 1) = n + 1 + i := by omega
      have hne : eKey n ≠ eKey (n + 1 + i) := by
        intro he
        have := eKey_inj he
        omega
      rw [h2]
      simp only [eSection, lookupP, if_neg hne, List.getElem?_cons_succ]
      exact ih (n + 1) i

theorem lookupP_fSection_c (l : List JobFilter) : ∀ n i,
    lookupP (fcKey (n + i)) (fSection n l) = (l[i]?).map (fun f => f.col) := by
  induction l with
  | nil => intro n i; rfl
  | cons a rest ih =>
    intro n i
    have hm : ∀ j j' : Nat, fmKey j ≠ fcKey j' := fun j j' => ne_of_head2 (by decide)
    have hv : ∀ j j' : Nat, fvKey j ≠ fcKey j' := fun j j' => ne_of_head2 (by decide)
    cases i with
    | zero => simp [fSection, lookupP]
    | succ i =>
      have h2 : n + (i + 1) = n + 1 + i := by omega
      have hne : fcKey n ≠ fcKey (n + 1 + i) := by
        intro he
        have := fcKey_inj he
        omega
      rw [h2]
      simp only [fSection, lookupP, if_neg hne, if_neg (hm n (n + 1 + i)),
        if_neg (hv n (n + 1 + i)), List.getElem?_cons_succ]
      exact ih (n + 1) i

theorem lookupP_fSection_m (l : List JobFilter) : ∀ n i,
    lookupP (fmKey (n + i)) (fSection n l) = (l[i]?).map (fun f => matchKindToStr f.kind) := by
  induction l with
  | nil => intro n i; rfl
  | cons a rest ih =>
    intro n i
    have hc : ∀ j j' : Nat, fcKey j ≠ fmKey j' := fun j j' => ne_of_head2 (by decide)
    have hv : ∀ j j' : Nat, fvKey j ≠ fmKey j' := fun j j' => ne_of_head2 (by decide)
    cases i with
    | zero => simp [fSection, lookupP, hc n n]
    | succ i =>
      have h2 : n + (i + 1) = n + 1 + i := by omega
      have hne : fmKey n ≠ fmKey (n + 1 + i) := by
        intro he
        have := fmKey_inj he
        omega
      rw [h2]
      simp only [fSection, lookupP, if_neg hne, if_neg (hc n (n + 1 + i)),
        if_neg (hv n (n + 1 + i)), List.getElem?_cons_succ]
      exact ih (n + 1) i

theorem lookupP_fSection_v (l : List JobFilter) : ∀ n i,
    lookupP (fvKey (n + i)) (fSection n l) = (l[i]?).map (fun f => f.value) := by
  induction l with
  | nil => intro n i; rfl
  | cons a rest ih =>
    intro n i
    have hc : ∀ j j' : Nat, fcKey j ≠ fvKey j' := fun j j' => ne_of_head2 (by decide)
    have hm : ∀ j j' : Nat, fmKey j ≠ fvKey j' := fun j j' => ne_of_head2 (by decide)
    cases i with
    | zero => simp [fSection, lookupP, hc n n, hm n n]
    | succ i =>
      have h2 : n + (i + 1) = n + 1 + i := by omega
      have hne : fvKey n ≠ fvKey (n + 1 + i) := by
        intro he
        have := fvKey_inj he
        omega
      rw [h2]
      simp only [fSection, lookupP, if_neg hne, if_neg (hc n (n + 1 + i)),
        if_neg (hm n (n + 1 + i)), List.getElem?_cons_succ]
      exact ih (n + 1) i

theorem gSection_length (l : List Str) : ∀ n, (gSection n l).length = l.length := by
  induction l with
  | nil => intro n; rfl
  | cons a rest ih => intro n; simp [gSection, ih]

theorem fSection_length (l : List JobFilter) : ∀ n, (fSection n l).length = 3 * l.length := by
  induction l with
  | nil => intro n; rfl
  | cons a rest ih => intro n; simp [fSection, ih]; omega

theorem eSection_length (l : List GroupPath) : ∀ n, (eSection n l).length = l.length := by
  induction l with
  | nil => intro n; rfl
  | cons a rest ih => intro n; simp [eSection, ih]

theorem unescape_cons_of_ne {c : Char} (h : c ≠ '%') (t : Str) :
    unescape (c :: t) = c :: unescape t := by
  cases t with
  | nil => rfl
  | cons d r => simp [unescape, h]

theorem unescape_esc (c : Char) (t : Str) : unescape ('%' :: c :: t) = c :: unescape t := by
  simp [unescape]

theorem unescape_escape (s : Str) : unescape (escape s) = s := by
  induction s with
  | nil => rfl
  | cons c rest ih =>
    cases h : escChar c with
    | true => simp [escape, h, unescape_esc, ih]
    | false =>
      have hc : c ≠ '%' := by
        intro he
        subst he
        simp [escChar] at h
      simp [escape, h, unescape_cons_of_ne hc, ih]

theorem splitEsc_esc (d c : Char) (t : Str) :
    splitEsc d ('%' :: c :: t) = ('%' :: c :: (splitEsc d t).1, (splitEsc d t).2) := by
  simp [splitEsc]

theorem splitEsc_delim {d : Char} (hd : d ≠ '%') (t : Str) :
    splitEsc d (d :: t) = ([], some t) := by
  cases t with
  | nil => simp [splitEsc]
  | cons e r => simp [splitEsc, hd]

theorem splitEsc_other {d c : Char} (hc : c ≠ '%') (hcd : c ≠ d) (t : Str) :
    splitEsc d (c :: t) = (c :: (splitEsc d t).1, (splitEsc d t).2) := by
  cases t with
  | nil => simp [splitEsc, hcd]
  | cons e r => simp [splitEsc, hc, hcd]

theorem splitEsc_escape_append {d : Char} (hd : d = ':' ∨ d = '>') (k t : Str) :
    splitEsc d (escape k ++ t) = (escape k ++ (splitEsc d t).1, (splitEsc d t).2) := by
  induction k with
  | nil => simp [escape]
  | cons c rest ih =>
    cases hc : escChar c with
    | true =>
      have h1 : escape (c :: rest) = '%' :: c :: escape rest := by simp [escape, hc]
      rw [h1, List.cons_append, List.cons_append, splitEsc_esc, ih]
      simp
    | false =>
      have hc1 : c ≠ '%' := by
        intro he
        subst he
        simp [escChar] at hc
      have hc2 : c ≠ d := by
        intro he
        subst he
        rcases hd with h | h <;> subst h <;> simp [escChar] at hc
      have h1 : escape (c :: rest) = c :: escape rest := by simp [escape, hc]
      rw [h1, List.cons_append, splitEsc_other hc1 hc2, ih]
      simp

theorem splitEsc_gt_encodePair (kv : Str × Str) (t : Str) :
    splitEsc '>' (encodePair kv ++ t) =
      (encodePair kv ++ (splitEsc '>' t).1, (splitEsc '>' t).2) := by
  have h1 : encodePair kv ++ t = escape kv.1 ++ (':' :: (escape kv.2 ++ t)) := by
    simp [encodePair]
  rw [h1, splitEsc_escape_append (Or.inr rfl)]
  rw [splitEsc_other (by decide) (by decide)]
  rw [splitEsc_escape_append (Or.inr rfl)]
  simp [encodePair]

theorem splitAllEscF_join : ∀ (ps : List (Str × Str)) (fuel : Nat), ps ≠ [] →
    ps.length ≤ fuel + 1 →
    splitAllEscF '>' fuel (joinGt (ps.map encodePair)) = ps.map encodePair := by
  intro ps
  induction ps with
  | nil => intro fuel h _; exact absurd rfl h
  | cons p tail ih =>
    intro fuel _ hlen
    cases tail with
    | nil =>
      cases fuel with
      | zero => rfl
      | succ f =>
        have h2 := splitEsc_gt_encodePair p []
        simp only [List.append_nil] at h2
        simp [splitAllEscF, joinGt, h2, splitEsc]
    | cons q tail2 =>
      have hf : ∃ f, fuel = f + 1 := by
        cases fuel with
        | zero => simp at hlen
        | succ f => exact ⟨f, rfl⟩
      obtain ⟨f, rfl⟩ := hf
      have h2 := splitEsc_gt_encodePair p ('>' :: joinGt ((q :: tail2).map encodePair))
      rw [splitEsc_delim (by decide)] at h2
      simp only [List.append_nil] at h2
      have hjoin : joinGt ((p :: q :: tail2).map encodePair) =
          encodePair p ++ '>' :: joinGt ((q :: tail2).map encodePair) := by
        simp [joinGt]
      simp only [splitAllEscF, hjoin, h2]
      rw [ih f (by simp) (by simp at hlen ⊢; omega)]
      simp

theorem joinGt_len : ∀ ps : List Str, ps.length ≤ (joinGt ps).length + 1 := by
  intro ps
  induction ps with
  | nil => simp
  | cons x tail ih =>
    cases tail with
    | nil => simp [joinGt]
    | cons y rest =>
      simp only [joinGt, List.length_append, List.length_cons] at ih ⊢
      omega

theorem splitAllEsc_encodePath {p : GroupPath} (h : p ≠ []) :
    splitAllEsc '>' (encodePath p) = p.map encodePair := by
  rw [splitAllEsc, encodePath]
  have hb : (p.map encodePair).length ≤ (joinGt (p.map encodePair)).length + 1 := by
    have := joinGt_len (p.map encodePair)
    omega
  exact splitAllEscF_join p (joinGt (p.map encodePair)).length
    (by intro he; exact h (by simpa using he)) (by simpa using hb)

theorem splitAllEscF_colon_pair (a b : Str) : ∀ fuel,
    splitAllEscF ':' (fuel + 1) (escape a ++ ':' :: escape b) = [escape a, escape b] := by
  intro fuel
  have h1 := splitEsc_escape_append (d := ':') (Or.inl rfl) a (':' :: escape b)
  rw [splitEsc_delim (by decide)] at h1
  simp only [List.append_nil] at h1
  rw [splitAllEscF, h1]
  cases fuel with
  | zero => rfl
  | succ f =>
    have h2 := splitEsc_escape_append (d := ':') (Or.inl rfl) b []
    simp only [List.append_nil] at h2
    simp [splitAllEscF, h2, splitEsc]

theorem decodePair_encodePair (kv : Str × Str) : decodePair (encodePair kv) = some kv := by
  rw [decodePair, splitAllEsc]
  have hlen : (encodePair kv).length =
      ((escape kv.1).length + (escape kv.2).length) + 1 := by
    simp [encodePair]
    omega
  rw [hlen, encodePair, splitAllEscF_colon_pair]
  simp [unescape_escape]

theorem mapM_map_eq_some {α β : Type} (f : β → Option α) (g : α → β) :
    ∀ l : List α, (∀ a ∈ l, f (g a) = some a) → (l.map g).mapM f = some l := by
  intro l
  induction l with
  | nil => intro _; rfl
  | cons a rest ih =>
    intro h
    have h1 := h a (by simp)
    have h2 := ih (fun b hb => h b (by simp [hb]))
    rw [List.map_cons, List.mapM_cons, h1, h2]
    rfl

theorem decodePath_encodePath {p : GroupPath} (h : p ≠ []) :
    decodePath (encodePath p) = some p := by
  rw [decodePath, splitAllEsc_encodePath h]
  exact mapM_map_eq_some decodePair encodePair p (fun kv _ => decodePair_encodePair kv)

theorem collectIdx_eq {α : Type} (f : Nat → Option α) (l : List α)
    (h : ∀ i, f i = l[i]?) :
    ∀ fuel k, l.length ≤ fuel + k → collectIdx f fuel k = l.drop k := by
  intro fuel
  induction fuel with
  | zero =>
    intro k hk
    rw [collectIdx]
    exact (List.drop_eq_nil_iff.mpr (by omega)).symm
  | succ fu ih =>
    intro k hk
    rw [collectIdx, h k]
    cases hl : l[k]? with
    | none =>
      have hlen : l.length ≤ k := List.getElem?_eq_none_iff.mp hl
      exact (List.drop_eq_nil_iff.mpr hlen).symm
    | some a =>
      obtain ⟨hlt, hval⟩ := List.getElem?_eq_some_iff.mp hl
      have hdrop : l.drop k = a :: l.drop (k + 1) := by
        rw [List.drop_eq_getElem_cons hlt, hval]
      rw [ih (k + 1) (by omega), hdrop]

theorem lookupP_encode_page (s : TableState) :
    lookupP pageKey (encode s) = some (natToStr s.page) := by
  simp [encode, lookupP]

theorem lookupP_encode_ps (s : TableState) :
    lookupP psKey (encode s) = some (natToStr s.pageSize) := by
  have h1 : ¬(pageKey = psKey) := by decide
  simp [encode, lookupP, h1]

theorem lookupP_encode_sortId (s : TableState) :
    lookupP sortIdKey (encode s) = some s.sortId := by
  have h1 : ¬(pageKey = sortIdKey) := by decide
  have h2 : ¬(psKey = sortIdKey) := by decide
  simp [encode, lookupP, h1, h2]

theorem lookupP_encode_sortDesc (s : TableState) :
    lookupP sortDescKey (encode s) = some (boolToStr s.sortDesc) := by
  have h1 : ¬(pageKey = sortDescKey) := by decide
  have h2 : ¬(psKey = sortDescKey) := by decide
  have h3 : ¬(sortIdKey = sortDescKey) := by decide
  simp [encode, lookupP, h1, h2, h3]

theorem lookupP_encode_g (s : TableState) (i : Nat) :
    lookupP (gKey i) (encode s) = s.grouping[i]? := by
  have h1 : ¬(pageKey = gKey i) := ne_of_head (by decide)
  have h2 : ¬(psKey = gKey i) := ne_of_head (by decide)
  have h3 : ¬(sortIdKey = gKey i) := ne_of_head (by decide)
  have h4 : ¬(sortDescKey = gKey i) := ne_of_head (by decide)
  have hg : lookupP (gKey i) (gSection 0 s.grouping) = s.grouping[i]? := by
    have := lookupP_gSection s.grouping 0 i
    simpa using this
  have hf : lookupP (gKey i) (fSection 0 s.filters) = none :=
    lookupP_fSection_none
      (fun j => ⟨ne_of_head (by decide), ne_of_head (by decide), ne_of_head (by decide)⟩) 0 _
  have he : lookupP (gKey i) (eSection 0 s.expanded) = none :=
    lookupP_eSection_none (fun j => ne_of_head (by decide)) 0 _
  have hsb : lookupP (gKey i) (sbSection s.sidebarJobId) = none :=
    lookupP_sbSection_none (ne_of_head (by decide)) _
  cases hgi : s.grouping[i]? with
  | some v =>
    rw [hgi] at hg
    simp [encode, lookupP, h1, h2, h3, h4, lookupP_append, hg]
  | none =>
    rw [hgi] at hg
    simp [encode, lookupP, h1, h2, h3, h4, lookupP_append, hg, hf, he, hsb]

theorem lookupP_encode_fc (s : TableState) (i : Nat) :
    lookupP (fcKey i) (encode s) = (s.filters[i]?).map (fun f => f.col) := by
  have h1 : ¬(pageKey = fcKey i) := ne_of_head (by decide)
  have h2 : ¬(psKey = fcKey i) := ne_of_head (by decide)
  have h3 : ¬(sortIdKey = fcKey i) := ne_of_head (by decide)
  have h4 : ¬(sortDescKey = fcKey i) := ne_of_head (by decide)
  have hg : lookupP (fcKey i) (gSection 0 s.grouping) = none :=
    lookupP_gSection_none (fun j => ne_of_head (by decide)) 0 _
  have hf : lookupP (fcKey i) (fSection 0 s.filters) = (s.filters[i]?).map (fun f => f.col) := by
    have := lookupP_fSection_c s.filters 0 i
    simpa using this
  have he : lookupP (fcKey i) (eSection 0 s.expanded) = none :=
    lookupP_eSection_none (fun j => ne_of_head (by decide)) 0 _
  have hsb : lookupP (fcKey i) (sbSection s.sidebarJobId) = none :=
    lookupP_sbSection_none (ne_of_head (by decide)) _
  cases hfi : s.filters[i]? with
  | some v =>
    rw [hfi] at hf
    simp [encode, lookupP, h1, h2, h3, h4, lookupP_append, hg, hf]
  | none =>
    rw [hfi] at hf
    simp [encode, lookupP, h1, h2, h3, h4, lookupP_append, hg, hf, he, hsb]

theorem lookupP_encode_fm (s : TableState) (i : Nat) :
    lookupP (fmKey i) (encode s) = (s.filters[i]?).map (fun f => matchKindToStr f.kind) := by
  have h1 : ¬(pageKey = fmKey i) := ne_of_head (by decide)
  have h2 : ¬(psKey = fmKey i) := ne_of_head (by decide)
  have h3 : ¬(sortIdKey = fmKey i) := ne_of_head (by decide)
  have h4 : ¬(sortDescKey = fmKey i) := ne_of_head (by decide)
  have hg : lookupP (fmKey i) (gSection 0 s.grouping) = none :=
    lookupP_gSection_none (fun j => ne_of_head (by decide)) 0 _
  have hf : lookupP (fmKey i) (fSection 0 s.filters) =
      (s.filters[i]?).map (fun f => matchKindToStr f.kind) := by
    have := lookupP_fSection_m s.filters 0 i
    simpa using this
  have he : lookupP (fmKey i) (eSection 0 s.expanded) = none :=
    lookupP_eSection_none (fun j => ne_of_head (by decide)) 0 _
  have hsb : lookupP (fmKey i) (sbSection s.sidebarJobId) = none :=
    lookupP_sbSection_none (ne_of_head (by decide)) _
  cases hfi : s.filters[i]? with
  | some v =>
    rw [hfi] at hf
    simp [encode, lookupP, h1, h2, h3, h4, lookupP_append, hg, hf]
  | none =>
    rw [hfi] at hf
    simp [encode, lookupP, h1, h2, h3, h4, lookupP_append, hg, hf, he, hsb]

theorem lookupP_encode_fv (s : TableState) (i : Nat) :
    lookupP (fvKey i) (encode s) = (s.filters[i]?).map (fun f => f.value) := by
  have h1 : ¬(pageKey = fvKey i) := ne_of_head (by decide)
  have h2 : ¬(psKey = fvKey i) := ne_of_head (by decide)
  have h3 : ¬(sortIdKey = fvKey i) := ne_of_head (by decide)
  have h4 : ¬(sortDescKey = fvKey i) := ne_of_head (by decide)
  have hg : lookupP (fvKey i) (gSection 0 s.grouping) = none :=
    lookupP_gSection_none (fun j => ne_of_head (by decide)) 0 _
  have hf : lookupP (fvKey i) (fSection 0 s.filters) = (s.filters[i]?).map (fun f => f.value) := by
    have := lookupP_fSection_v s.filters 0 i
    simpa using this
  have he : lookupP (fvKey i) (eSection 0 s.expanded) = none :=
    lookupP_eSection_none (fun j => ne_of_head (by decide)) 0 _
  have hsb : lookupP (fvKey i) (sbSection s.sidebarJobId) = none :=
    lookupP_sbSection_none (ne_of_head (by decide)) _
  cases hfi : s.filters[i]? with
  | some v =>
    rw [hfi] at hf
    simp [encode, lookupP, h1, h2, h3, h4, lookupP_append, hg, hf]
  | none =>
    rw [hfi] at hf
    simp [encode, lookupP, h1, h2, h3, h4, lookupP_append, hg, hf, he, hsb]

theorem lookupP_encode_e (s : TableState) (i : Nat) :
    lookupP (eKey i) (encode s) = (s.expanded[i]?).map encodePath := by
  have h1 : ¬(pageKey = eKey i) := ne_of_head (by decide)
  have h2 : ¬(psKey = eKey i) := ne_of_head (by decide)
  have h3 : ¬(sortIdKey = eKey i) := ne_of_head (by decide)
  have h4 : ¬(sortDescKey = eKey i) := ne_of_head (by decide)
  have hg : lookupP (eKey i) (gSection 0 s.grouping) = none :=
    lookupP_gSection_none (fun j => ne_of_head (by decide)) 0 _
  have hf : lookupP (eKey i) (fSection 0 s.filters) = none :=
    lookupP_fSection_none
      (fun j => ⟨ne_of_head (by decide), ne_of_head (by decide), ne_of_head (by decide)⟩) 0 _
  have he : lookupP (eKey i) (eSection 0 s.expanded) = (s.expanded[i]?).map encodePath := by
    have := lookupP_eSection s.expanded 0 i
    simpa using this
  have hsb : lookupP (eKey i) (sbSection s.sidebarJobId) = none :=
    lookupP_sbSection_none (ne_of_head (by decide)) _
  cases hei : s.expanded[i]? with
  | some v =>
    rw [hei] at he
    simp [encode, lookupP, h1, h2, h3, h4, lookupP_append, hg, hf, he]
  | none =>
    rw [hei] at he
    simp [encode, lookupP, h1, h2, h3, h4, lookupP_append, hg, hf, he, hsb]

theorem lookupP_encode_sb (s : TableState) :
    lookupP sbKey (encode s) = s.sidebarJobId := by
  have h1 : ¬(pageKey = sbKey) := by decide
  have h2 : ¬(psKey = sbKey) := by decide
  have h3 : ¬(sortIdKey = sbKey) := by decide
  have h4 : ¬(sortDescKey = sbKey) := by decide
  have hg : lookupP sbKey (gSection 0 s.grouping) = none :=
    lookupP_gSection_none (fun j => ne_of_head (by decide)) 0 _
  have hf : lookupP sbKey (fSection 0 s.filters) = none :=
    lookupP_fSection_none
      (fun j => ⟨ne_of_head (by decide), ne_of_head (by decide), ne_of_head (by decide)⟩) 0 _
  have he : lookupP sbKey (eSection 0 s.expanded) = none :=
    lookupP_eSection_none (fun j => ne_of_head (by decide)) 0 _
  have hsb : lookupP sbKey (sbSection s.sidebarJobId) = s.sidebarJobId := by
    cases h : s.sidebarJobId with
    | none => rfl
    | some v => simp [sbSection, lookupP]
  simp [encode, lookupP, h1, h2, h3, h4, lookupP_append, hg, hf, he, hsb]

theorem strToMatchKind?_matchKindToStr (k : MatchKind) :
    strToMatchKind? (matchKindToStr k) = some k := by
  cases k <;> rfl

theorem decodeFilterAt_encode (s : TableState) (i : Nat) :
    decodeFilterAt (encode s) i = s.filters[i]? := by
  rw [decodeFilterAt, lookupP_encode_fc, lookupP_encode_fm, lookupP_encode_fv]
  cases hfi : s.filters[i]? with
  | none => rfl
  | some f => simp [strToMatchKind?_matchKindToStr]

theorem encode_length (s : TableState) :
    (encode s).length =
      4 + s.grouping.length + 3 * s.filters.length + s.expanded.length +
        (sbSection s.sidebarJobId).length := by
  simp [encode, gSection_length, fSection_length, eSection_length]
  omega

theorem decode_encode (s : TableState) (hexp : ∀ p ∈ s.expanded, p ≠ []) :
    decode (encode s) = { s with selected := [] } := by
  obtain ⟨pg, pS, si, sd, gr, fl, ex, sel, sb⟩ := s
  have hlen : (encode ⟨pg, pS, si, sd, gr, fl, ex, sel, sb⟩).length =
      4 + gr.length + 3 * fl.length + ex.length + (sbSection sb).length := by
    simpa using encode_length ⟨pg, pS, si, sd, gr, fl, ex, sel, sb⟩
  simp only [decode, TableState.mk.injEq]
  refine ⟨?_, ?_, ?_, ?_, ?_, ?_, ?_, trivial, ?_⟩
  · rw [decodeNatParam, lookupP_encode_page]
    simp [strToNat?_natToStr]
  · rw [decodeNatParam, lookupP_encode_ps]
    simp [strToNat?_natToStr]
  · rw [lookupP_encode_sortId]
    rfl
  · rw [decodeBoolParam, lookupP_encode_sortDesc]
    cases sd with
    | true => rfl
    | false =>
      have hne : ¬(boolToStr false = boolToStr true) := by decide
      simp [hne]
  · rw [collectIdx_eq _ gr (fun i => lookupP_encode_g _ i) _ 0 (by omega)]
    exact List.drop_zero gr
  · rw [collectIdx_eq _ fl (fun i => decodeFilterAt_encode _ i) _ 0 (by omega)]
    exact List.drop_zero fl
  · have hpt : ∀ i,
        (lookupP (eKey i) (encode ⟨pg, pS, si, sd, gr, fl, ex, sel, sb⟩)).bind decodePath =
          ex[i]? := by
      intro i
      rw [lookupP_encode_e]
      cases hei : ex[i]? with
      | none => rfl
      | some p =>
        have hp : p ≠ [] := hexp p (List.getElem?_mem hei)
        simp [decodePath_encodePath hp]
    rw [collectIdx_eq _ ex hpt _ 0 (by omega)]
    exact List.drop_zero ex
  · exact lookupP_encode_sb _

theorem isPre_iff (p q : GroupPath) : isPre p q = true ↔ p <+: q := by
  induction p generalizing q with
  | nil => simp [isPre]
  | cons a as ih =>
    cases q with
    | nil => simp [isPre]
    | cons b bs => simp [isPre, List.cons_prefix_cons, ih]

theorem prefix_dropLast {q p : GroupPath} (hpre : q <+: p) (hne : q ≠ p) :
    q <+: p.dropLast := by
  obtain ⟨t, ht⟩ := hpre
  have htne : t ≠ [] := by
    intro h
    subst h
    simp at ht
    exact hne ht
  rw [← ht, List.dropLast_append_of_ne_nil q htne]
  exact List.prefix_append q t.dropLast

theorem reachable_expanded_ne_nil {s : TableState} (h : Reachable s) :
    ∀ p ∈ s.expanded, p ≠ [] := by
  induction h with
  | init => intro p hp; simp [initialState] at hp
  | next a s h ih =>
    intro p hp
    cases a with
    | setGroupingA g => simp [step, setGrouping] at hp
    | toggleExpandA q =>
      by_cases hc : q ≠ [] ∧ (q.dropLast = [] ∨ q.dropLast ∈ s.expanded)
      · simp only [step, toggleExpand, if_pos hc] at hp
        by_cases hm : q ∈ s.expanded
        · rw [if_pos hm] at hp
          exact ih p (List.mem_filter.mp hp).1
        · rw [if_neg hm] at hp
          rcases List.mem_append.mp hp with h1 | h1
          · exact ih p h1
          · have hpq : p = q := by simpa using h1
            subst hpq
            exact hc.1
      · simp only [step, toggleExpand, if_neg hc] at hp
        exact ih p hp
    | setFilterA f =>
      simp only [step, setFilter] at hp
      exact ih p hp
    | clearFilterA col =>
      simp only [step, clearFilter] at hp
      exact ih p hp
    | setSortA col desc =>
      simp only [step, setSort] at hp
      exact ih p hp
    | setPageA i =>
      simp only [step, setPage] at hp
      exact ih p hp
    | setPageSizeA n =>
      simp only [step, setPageSize] at hp
      exact ih p hp
    | toggleSelectA k =>
      simp only [step, toggleSelect] at hp
      exact ih p hp
    | clearSelectionA =>
      simp only [step, clearSelection] at hp
      exact ih p hp
    | openDetailA id =>
      simp only [step, openDetail] at hp
      exact ih p hp
    | closeDetailA =>
      simp only [step, closeDetail] at hp
      exact ih p hp

theorem toggleExpand_invalid (s : TableState) (p : GroupPath)
    (h1 : p.dropLast ≠ []) (h2 : p.dropLast ∉ s.expanded) :
    toggleExpand p s = .error .invalidExpansionPath := by
  rw [toggleExpand, if_neg]
  intro hc
  rcases hc.2 with h | h
  · exact h1 h
  · exact h2 h

theorem toggleExpand_preserves_inv (s : TableState) (p : GroupPath)
    (h : expansionInv s) : expansionInv (step (.toggleExpandA p) s) := by
  by_cases hc : p ≠ [] ∧ (p.dropLast = [] ∨ p.dropLast ∈ s.expanded)
  · simp only [step, toggleExpand, if_pos hc]
    by_cases hm : p ∈ s.expanded
    · rw [if_pos hm]
      intro r hr q hq hqne hqr
      have hmf := List.mem_filter.mp hr
      have hrs : r ∈ s.expanded := hmf.1
      have hnpr : isPre p r = false := by
        have h2 := hmf.2
        cases hh : isPre p r
        · rfl
        · rw [hh] at h2
          simp at h2
      have hqs : q ∈ s.expanded := h r hrs q hq hqne hqr
      apply List.mem_filter.mpr
      refine ⟨hqs, ?_⟩
      cases hh : isPre p q
      · simp
      · exfalso
        have hppq : p <+: q := (isPre_iff p q).mp hh
        have hppr : p <+: r := hppq.trans hq
        rw [(isPre_iff p r).mpr hppr] at hnpr
        exact Bool.noConfusion hnpr
    · rw [if_neg hm]
      intro r hr q hq hqne hqr
      rcases List.mem_append.mp hr with h1 | h1
      · exact List.mem_append.mpr (Or.inl (h r h1 q hq hqne hqr))
      · have hrp : r = p := by simpa using h1
        subst hrp
        have hqd : q <+: r.dropLast := prefix_dropLast hq hqr
        rcases hc.2 with hd | hd
        · rw [hd] at hqd
          exact absurd (List.prefix_nil.mp hqd) hqne
        · by_cases hqe : q = r.dropLast
          · subst hqe
            exact List.mem_append.mpr (Or.inl hd)
          · exact List.mem_append.mpr (Or.inl (h r.dropLast hd q hqd hqne hqe))
  · simp only [step, toggleExpand, if_neg hc]
    exact h

theorem filterJobs_nil (db : List Job) : filterJobs [] db = db := by
  rw [filterJobs]
  rw [List.filter_eq_self.mpr]
  intro j _
  rfl

theorem insertJob_perm (le : Job → Job → Bool) (j : Job) (l : List Job) :
    List.Perm (insertJob le j l) (j :: l) := by
  induction l with
  | nil => exact List.Perm.refl _
  | cons k rest ih =>
    rw [insertJob]
    cases h : le j k with
    | true => simp
    | false =>
      simp only [Bool.false_eq_true, if_false]
      exact (List.Perm.cons k ih).trans (List.Perm.swap j k rest)

theorem sortJobsBy_perm (le : Job → Job → Bool) (l : List Job) :
    List.Perm (sortJobsBy le l) l := by
  induction l with
  | nil => exact List.Perm.refl _
  | cons j rest ih =>
    exact (insertJob_perm le j (sortJobsBy le rest)).trans (List.Perm.cons j ih)

theorem sortJobs_perm (sortId : Str) (desc : Bool) (l : List Job) :
    List.Perm (sortJobs sortId desc l) l :=
  sortJobsBy_perm (jobLe sortId desc) l

theorem mem_uniqVals {v : Str} : ∀ {l : List Str}, v ∈ uniqVals l ↔ v ∈ l := by
  intro l
  induction l with
  | nil => simp [uniqVals]
  | cons a rest ih =>
    by_cases h : a ∈ uniqVals rest
    · rw [uniqVals, if_pos h]
      constructor
      · intro hv
        exact List.mem_cons.mpr (Or.inr (ih.mp hv))
      · intro hv
        rcases List.mem_cons.mp hv with h1 | h1
        · subst h1
          exact h
        · exact ih.mpr h1
    · rw [uniqVals, if_neg h]
      simp [List.mem_cons, ih]

theorem nodup_uniqVals (l : List Str) : (uniqVals l).Nodup := by
  induction l with
  | nil => simp [uniqVals]
  | cons a rest ih =>
    by_cases h : a ∈ uniqVals rest
    · rw [uniqVals, if_pos h]
      exact ih
    · rw [uniqVals, if_neg h]
      exact List.nodup_cons.mpr ⟨h, ih⟩

theorem length_uniqVals (l : List Str) : (uniqVals l).length = l.toFinset.card := by
  induction l with
  | nil => simp [uniqVals]
  | cons a rest ih =>
    by_cases h : a ∈ uniqVals rest
    · have ha : a ∈ rest := mem_uniqVals.mp h
      rw [uniqVals, if_pos h, List.toFinset_cons,
        Finset.insert_eq_self.mpr (List.mem_toFinset.mpr ha)]
      exact ih
    · have ha : a ∉ rest := fun hr => h (mem_uniqVals.mpr hr)
      rw [uniqVals, if_neg h, List.toFinset_cons,
        Finset.card_insert_of_not_mem (by simpa using ha)]
      simp [ih]

theorem length_uniqVals_perm {l1 l2 : List Str} (h : List.Perm l1 l2) :
    (uniqVals l1).length = (uniqVals l2).length := by
  rw [length_uniqVals, length_uniqVals, List.toFinset_eq_of_perm _ _ h]

theorem length_flatMap_cons {α β : Type} (l : List α) (hd : α → β) (tl : α → List β) :
    (l.flatMap fun v => hd v :: tl v).length =
      l.length + (l.map fun v => (tl v).length).sum := by
  induction l with
  | nil => rfl
  | cons v rest ih =>
    simp only [List.flatMap_cons, List.map_cons, List.sum_cons, List.length_append,
      List.length_cons, ih]
    omega

theorem sum_map_zero {α : Type} (l : List α) : (l.map fun _ => (0 : Nat)).sum = 0 := by
  induction l with
  | nil => rfl
  | cons v rest ih => simp [ih]

theorem sum_map_ite {l : List Str} (hnd : l.Nodup) {v0 : Str} (hv : v0 ∈ l) (m : Nat) :
    (l.map fun v => if v = v0 then m else 0).sum = m := by
  induction l with
  | nil => simp at hv
  | cons a rest ih =>
    by_cases hav : a = v0
    · subst hav
      have hnin : a ∉ rest := (List.nodup_cons.mp hnd).1
      have hz : (rest.map fun v => if v = a then m else 0).sum = 0 := by
        have he : (rest.map fun v => if v = a then m else 0) = rest.map fun _ => 0 := by
          apply List.map_congr_left
          intro v hvr
          have hva : v ≠ a := fun h2 => hnin (h2 ▸ hvr)
          simp [hva]
        rw [he, sum_map_zero]
      simp [hz]
    · have hvr : v0 ∈ rest := by
        rcases List.mem_cons.mp hv with h | h
        · exact absurd h.symm hav
        · exact h
      simp [hav, ih (List.nodup_cons.mp hnd).2 hvr]

theorem matchesFilters_pathFilters (p : GroupPath) (j : Job) :
    matchesFilters (pathFilters p) j = pathMatches p j := by
  induction p with
  | nil => rfl
  | cons kv rest ih =>
    show (matchesFilter ⟨kv.1, .exact, kv.2⟩ j && matchesFilters (pathFilters rest) j) =
      (decide (jobValue kv.1 j = kv.2) && pathMatches rest j)
    rw [ih]
    rfl

theorem groupCancelCount_eq (db : List Job) (p : GroupPath) :
    groupCancelCount db p =
      (db.filter (fun j => pathMatches p j && !isTerminal j.state)).length := by
  rw [groupCancelCount, filterJobs, List.filter_filter]
  congr 1
  apply List.filter_congr
  intro j _
  rw [matchesFilters_pathFilters, Bool.and_comm]

theorem resolve_flat_length (db : List Job) (s : TableState)
    (hg : s.grouping = []) (hp : s.page = 0)
    (hb : (filterJobs s.filters db).length ≤ s.pageSize) :
    (resolve db s).1.length = (filterJobs s.filters db).length := by
  obtain ⟨pg, ps, si, sd, gr, fl, ex, sel, sb⟩ := s
  have hg2 : gr = [] := hg
  have hp2 : pg = 0 := hp
  have hb2 : (filterJobs fl db).length ≤ ps := hb
  subst hg2
  subst hp2
  have hlen : (sortJobs si sd (filterJobs fl db)).length = (filterJobs fl db).length :=
    (sortJobs_perm si sd (filterJobs fl db)).length_eq
  simp [resolve, List.length_take, List.length_drop, hlen]
  omega

theorem c2_resolve_shape (db : List Job) (h : db.length = 60) :
    resolve db (c2State 0) =
      (((sortJobs jobIdCol false (filterJobs [] db)).take 50).map (Row.jobRow 0),
        TotalCount.atLeast 50) ∧
    resolve db (c2State 1) =
      ((((sortJobs jobIdCol false (filterJobs [] db)).drop 50).take 50).map (Row.jobRow 0),
        TotalCount.exact 60) := by
  have hlen : (sortJobs jobIdCol false (filterJobs [] db)).length = 60 := by
    rw [(sortJobs_perm jobIdCol false (filterJobs [] db)).length_eq, filterJobs_nil, h]
  constructor
  · simp [resolve, c2State, totalFor, hlen]
  · simp [resolve, c2State, totalFor, hlen]

/-- C2: For an ungrouped set of exactly 60 jobs sorted ascending by id with
page size 50, page 0 resolves to exactly 50 job rows with the lower-bound
total "1-50 of more than 50", page 1 resolves to exactly the remaining 10 job
rows with the exact total "51-60 of 60"; the total switches from lower-bound
to exact on the last page. -/
theorem c2_pagination_totals (db : List Job) (h : db.length = 60) :
    (resolve db (c2State 0)).1.length = 50 ∧
    (resolve db (c2State 0)).2 = TotalCount.atLeast 50 ∧
    (resolve db (c2State 1)).1.length = 10 ∧
    (resolve db (c2State 1)).2 = TotalCount.exact 60 ∧
    (resolve db (c2State 0)).1 ++ (resolve db (c2State 1)).1 =
      (sortJobs jobIdCol false (filterJobs [] db)).map (Row.jobRow 0) ∧
    totalText 1 50 ((resolve db (c2State 0)).2) = "1–50 of more than 50".data ∧
    totalText 51 60 ((resolve db (c2State 1)).2) = "51–60 of 60".data := by
  obtain ⟨e0, e1⟩ := c2_resolve_shape db h
  have hlen : (sortJobs jobIdCol false (filterJobs [] db)).length = 60 := by
    rw [(sortJobs_perm jobIdCol false (filterJobs [] db)).length_eq, filterJobs_nil, h]
  refine ⟨?_, ?_, ?_, ?_, ?_, ?_, ?_⟩
  · rw [e0]
    simp [List.length_take, hlen]
  · rw [e0]
  · rw [e1]
    simp [List.length_take, List.length_drop, hlen]
  · rw [e1]
  · rw [e0, e1]
    have hd : ((sortJobs jobIdCol false (filterJobs [] db)).drop 50).take 50 =
        (sortJobs jobIdCol false (filterJobs [] db)).drop 50 :=
      List.take_of_length_le (by simp [List.length_drop, hlen])
    simp only [hd, ← List.map_append, List.take_append_drop]
  · rw [e0]
    show totalText 1 50 (TotalCount.atLeast 50) = "1–50 of more than 50".data
    decide
  · rw [e1]
    show totalText 51 60 (TotalCount.exact 60) = "51–60 of 60".data
    decide

/-- C2 witness: the sixty-job collection of the test suite instantiates the
pagination and total behaviour. -/
theorem c2_pagination_totals_witness :
    (resolve db60 (c2State 0)).1.length = 50 ∧
    (resolve db60 (c2State 0)).2 = TotalCount.atLeast 50 ∧
    (resolve db60 (c2State 1)).1.length = 10 ∧
    (resolve db60 (c2State 1)).2 = TotalCount.exact 60 ∧
    (resolve db60 (c2State 0)).1 ++ (resolve db60 (c2State 1)).1 =
      (sortJobs jobIdCol false (filterJobs [] db60)).map (Row.jobRow 0) ∧
    totalText 1 50 ((resolve db60 (c2State 0)).2) = "1–50 of more than 50".data ∧
    totalText 51 60 ((resolve db60 (c2State 1)).2) = "51–60 of 60".data :=
  c2_pagination_totals db60 (by simp [db60])

theorem resolve_grouped_shape (db : List Job) (c : Str) (rest : List Str)
    (exp : List GroupPath) (pS : Nat)
    (htake :
      ((groupValues c (sortJobs jobIdCol true (filterJobs [] db))).drop (0 * pS)).take pS =
        groupValues c (sortJobs jobIdCol true (filterJobs [] db))) :
    (resolve db (groupedState (c :: rest) exp pS)).1 =
      (groupValues c (sortJobs jobIdCol true (filterJobs [] db))).flatMap (fun v =>
        Row.groupRow 0 c v
            ((sortJobs jobIdCol true (filterJobs [] db)).filter
              (fun j => decide (jobValue c j = v))).length ::
          (if [(c, v)] ∈ exp then
            resolveLevel exp rest [(c, v)] 1
              ((sortJobs jobIdCol true (filterJobs [] db)).filter
                (fun j => decide (jobValue c j = v)))
          else [])) := by
  have hunfold : (resolve db (groupedState (c :: rest) exp pS)).1 =
      (((groupValues c (sortJobs jobIdCol true (filterJobs [] db))).drop (0 * pS)).take
          pS).flatMap (fun v =>
        Row.groupRow 0 c v
            ((sortJobs jobIdCol true (filterJobs [] db)).filter
              (fun j => decide (jobValue c j = v))).length ::
          (if [(c, v)] ∈ exp then
            resolveLevel exp rest [(c, v)] 1
              ((sortJobs jobIdCol true (filterJobs [] db)).filter
                (fun j => decide (jobValue c j = v)))
          else [])) := rfl
  rw [hunfold, htake]

/-- C3 (amended): with the number of distinct values of the grouped column not
exceeding the page size, single-level grouping with no expansions resolves to
exactly K rows; expanding one group of M jobs resolves to exactly K + M rows,
the job rows spliced under the expanded group; with a further nested grouping
level, expanding one outer group adds exactly the inner group count of that
group, counting no job or group twice. -/
theorem c3_grouping_rowcount (db : List Job) (c1 c2 v0 : Str) (pS : Nat)
    (hK : distinctCount c1 db ≤ pS)
    (hv : v0 ∈ db.map (jobValue c1)) :
    (resolve db (groupedState [c1] [] pS)).1.length = distinctCount c1 db ∧
    (resolve db (groupedState [c1] [[(c1, v0)]] pS)).1.length =
      distinctCount c1 db + groupSize c1 v0 db ∧
    (resolve db (groupedState [c1, c2] [[(c1, v0)]] pS)).1.length =
      distinctCount c1 db +
        distinctCount c2 (db.filter (fun j => decide (jobValue c1 j = v0))) := by
  have hperm : List.Perm (sortJobs jobIdCol true (filterJobs [] db)) db := by
    rw [filterJobs_nil]
    exact sortJobs_perm _ _ db
  have hmp : List.Perm ((sortJobs jobIdCol true (filterJobs [] db)).map (jobValue c1))
      (db.map (jobValue c1)) := hperm.map _
  have hKm : (groupValues c1 (sortJobs jobIdCol true (filterJobs [] db))).length =
      distinctCount c1 db := by
    rw [groupValues, distinctCount]
    exact length_uniqVals_perm hmp
  have hnd : (groupValues c1 (sortJobs jobIdCol true (filterJobs [] db))).Nodup :=
    nodup_uniqVals _
  have hv0 : v0 ∈ groupValues c1 (sortJobs jobIdCol true (filterJobs [] db)) := by
    rw [groupValues]
    exact mem_uniqVals.mpr (hmp.mem_iff.mpr hv)
  have htake :
      ((groupValues c1 (sortJobs jobIdCol true (filterJobs [] db))).drop (0 * pS)).take pS =
        groupValues c1 (sortJobs jobIdCol true (filterJobs [] db)) := by
    rw [Nat.zero_mul, List.drop_zero]
    exact List.take_of_length_le (by rw [hKm]; exact hK)
  have hsubperm : List.Perm
      ((sortJobs jobIdCol true (filterJobs [] db)).filter
        (fun j => decide (jobValue c1 j = v0)))
      (db.filter (fun j => decide (jobValue c1 j = v0))) := hperm.filter _
  refine ⟨?_, ?_, ?_⟩
  · rw [resolve_grouped_shape db c1 [] [] pS htake, length_flatMap_cons]
    have hz : (groupValues c1 (sortJobs jobIdCol true (filterJobs [] db))).map
          (fun v =>
            (if [(c1, v)] ∈ ([] : List GroupPath) then
              resolveLevel [] [] [(c1, v)] 1
                ((sortJobs jobIdCol true (filterJobs [] db)).filter
                  (fun j => decide (jobValue c1 j = v)))
            else []).length) =
        (groupValues c1 (sortJobs jobIdCol true (filterJobs [] db))).map (fun _ => 0) := by
      apply List.map_congr_left
      intro v _
      simp
    rw [hz, sum_map_zero, hKm, Nat.add_zero]
  · rw [resolve_grouped_shape db c1 [] [[(c1, v0)]] pS htake, length_flatMap_cons]
    have hz : (groupValues c1 (sortJobs jobIdCol true (filterJobs [] db))).map
          (fun v =>
            (if [(c1, v)] ∈ [[(c1, v0)]] then
              resolveLevel [[(c1, v0)]] [] [(c1, v)] 1
                ((sortJobs jobIdCol true (filterJobs [] db)).filter
                  (fun j => decide (jobValue c1 j = v)))
            else []).length) =
        (groupValues c1 (sortJobs jobIdCol true (filterJobs [] db))).map
          (fun v => if v = v0 then groupSize c1 v0 db else 0) := by
      apply List.map_congr_left
      intro v _
      by_cases hev : v = v0
      · rw [if_pos (show [(c1, v)] ∈ [[(c1, v0)]] by simp [hev]), if_pos hev, hev]
        have hmap : resolveLevel [[(c1, v0)]] [] [(c1, v0)] 1
            ((sortJobs jobIdCol true (filterJobs [] db)).filter
              (fun j => decide (jobValue c1 j = v0))) =
            ((sortJobs jobIdCol true (filterJobs [] db)).filter
              (fun j => decide (jobValue c1 j = v0))).map (Row.jobRow 1) := rfl
        rw [hmap, List.length_map, groupSize]
        exact hsubperm.length_eq
      · rw [if_neg (by simp [hev]), if_neg hev]
        rfl
    rw [hz, sum_map_ite hnd hv0, hKm]
  · rw [resolve_grouped_shape db c1 [c2] [[(c1, v0)]] pS htake, length_flatMap_cons]
    have hchild : (resolveLevel [[(c1, v0)]] [c2] [(c1, v0)] 1
          ((sortJobs jobIdCol true (filterJobs [] db)).filter
            (fun j => decide (jobValue c1 j = v0)))).length =
        distinctCount c2 (db.filter (fun j => decide (jobValue c1 j = v0))) := by
      have hrfl : resolveLevel [[(c1, v0)]] [c2] [(c1, v0)] 1
            ((sortJobs jobIdCol true (filterJobs [] db)).filter
              (fun j => decide (jobValue c1 j = v0))) =
          (groupValues c2 ((sortJobs jobIdCol true (filterJobs [] db)).filter
            (fun j => decide (jobValue c1 j = v0)))).flatMap (fun w =>
            Row.groupRow 1 c2 w
                (((sortJobs jobIdCol true (filterJobs [] db)).filter
                    (fun j => decide (jobValue c1 j = v0))).filter
                  (fun j => decide (jobValue c2 j = w))).length ::
              (if [(c1, v0)] ++ [(c2, w)] ∈ [[(c1, v0)]] then
                resolveLevel [[(c1, v0)]] [] ([(c1, v0)] ++ [(c2, w)]) 2
                  (((sortJobs jobIdCol true (filterJobs [] db)).filter
                      (fun j => decide (jobValue c1 j = v0))).filter
                    (fun j => decide (jobValue c2 j = w)))
              else [])) := rfl
      rw [hrfl, length_flatMap_cons]
      have hz : (groupValues c2 ((sortJobs jobIdCol true (filterJobs [] db)).filter
            (fun j => decide (jobValue c1 j = v0)))).map
            (fun w =>
              (if [(c1, v0)] ++ [(c2, w)] ∈ [[(c1, v0)]] then
                resolveLevel [[(c1, v0)]] [] ([(c1, v0)] ++ [(c2, w)]) 2
                  (((sortJobs jobIdCol true (filterJobs [] db)).filter
                      (fun j => decide (jobValue c1 j = v0))).filter
                    (fun j => decide (jobValue c2 j = w)))
              else []).length) =
          (groupValues c2 ((sortJobs jobIdCol true (filterJobs [] db)).filter
            (fun j => decide (jobValue c1 j = v0)))).map (fun _ => 0) := by
        apply List.map_congr_left
        intro w _
        rw [if_neg (by simp)]
        rfl
      rw [hz, sum_map_zero, Nat.add_zero, groupValues, distinctCount]
      exact length_uniqVals_perm (hsubperm.map _)
    have hz2 : (groupValues c1 (sortJobs jobIdCol true (filterJobs [] db))).map
          (fun v =>
            (if [(c1, v)] ∈ [[(c1, v0)]] then
              resolveLevel [[(c1, v0)]] [c2] [(c1, v)] 1
                ((sortJobs jobIdCol true (filterJobs [] db)).filter
                  (fun j => decide (jobValue c1 j = v)))
            else []).length) =
        (groupValues c1 (sortJobs jobIdCol true (filterJobs [] db))).map
          (fun v =>
            if v = v0 then
              distinctCount c2 (db.filter (fun j => decide (jobValue c1 j = v0)))
            else 0) := by
      apply List.map_congr_left
      intro v _
      by_cases hev : v = v0
      · rw [if_pos (show [(c1, v)] ∈ [[(c1, v0)]] by simp [hev]), if_pos hev, hev]
        exact hchild
      · rw [if_neg (by simp [hev]), if_neg hev]
        rfl
    rw [hz2, sum_map_ite hnd hv0, hKm]

/-- C3 witness: three jobs over two queues, grouped by queue with page size
50, instantiate the collapsed, expanded and nested row counts. -/
theorem c3_grouping_rowcount_witness :
    (resolve dbW3 (groupedState [queueCol] [] 50)).1.length = distinctCount queueCol dbW3 ∧
    (resolve dbW3 (groupedState [queueCol] [[(queueCol, ['a'])]] 50)).1.length =
      distinctCount queueCol dbW3 + groupSize queueCol ['a'] dbW3 ∧
    (resolve dbW3 (groupedState [queueCol, jobSetCol] [[(queueCol, ['a'])]] 50)).1.length =
      distinctCount queueCol dbW3 +
        distinctCount jobSetCol (dbW3.filter (fun j => decide (jobValue queueCol j = ['a']))) :=
  c3_grouping_rowcount dbW3 queueCol jobSetCol ['a'] 50 (by decide) (by decide)

/-- C3 counterexample: with two distinct queue values and page size 1,
single-level grouping with no expansions resolves to one displayed row, not
K = 2 - top-level pagination caps the group row count, so the claim as stated
fails. -/
theorem c3_pagination_caps_groups :
    (resolve dbW3 (groupedState [queueCol] [] 1)).1.length = 1 ∧
    distinctCount queueCol dbW3 = 2 ∧
    (resolve dbW3 (groupedState [queueCol] [] 1)).1.length ≠ distinctCount queueCol dbW3 := by
  decide

/-- C1 (amended): for every reachable TableState, decoding the encoded query
parameters reconstructs the state exactly except for the Selection Set, which
is not serialized and decodes as empty; in particular decode(encode(s)) = s
for every reachable state whose Selection Set is empty. -/
theorem c1_query_roundtrip (s : TableState) (h : Reachable s) :
    decode (encode s) = { s with selected := [] } :=
  decode_encode s (reachable_expanded_ne_nil h)

/-- C1 witness: a reachable state with a grouping and one expanded group
round-trips through the codec. -/
theorem c1_query_roundtrip_witness :
    decode (encode sW1) = { sW1 with selected := [] } :=
  c1_query_roundtrip sW1 (Reachable.next _ _ (Reachable.next _ _ Reachable.init))

/-- C1 counterexample: a reachable state with one selected row does not
survive the round-trip, because the Selection Set has no query-parameter
namespace - decode(encode(s)) = s fails as stated. -/
theorem c1_selection_not_encoded :
    Reachable sC1 ∧ decode (encode sC1) ≠ sC1 :=
  ⟨Reachable.next _ _ Reachable.init, by decide⟩

/-- C4: replacing the grouping sequence empties the Expansion Set and the
Selection Set and resets the page index to 0, for every prior state. -/
theorem c4_setGrouping_resets (s : TableState) (g : List Str) :
    (setGrouping g s).expanded = [] ∧ (setGrouping g s).selected = [] ∧
      (setGrouping g s).page = 0 :=
  ⟨rfl, rfl, rfl⟩

/-- C5 (amended): applying or clearing a text filter resets the page index to
0, and - for an ungrouped state whose matching row count does not exceed the
page size - the resolved row count equals exactly the number of jobs
satisfying the resulting filter predicate. -/
theorem c5_filter_reset (s : TableState) (f : JobFilter) (col : Str) (db : List Job)
    (hg : s.grouping = [])
    (h1 : (filterJobs (setFilter f s).filters db).length ≤ s.pageSize)
    (h2 : (filterJobs (clearFilter col s).filters db).length ≤ s.pageSize) :
    (setFilter f s).page = 0 ∧ (clearFilter col s).page = 0 ∧
    (resolve db (setFilter f s)).1.length = (filterJobs (setFilter f s).filters db).length ∧
    (resolve db (clearFilter col s)).1.length =
      (filterJobs (clearFilter col s).filters db).length := by
  refine ⟨rfl, rfl, ?_, ?_⟩
  · exact resolve_flat_length db (setFilter f s) hg rfl h1
  · exact resolve_flat_length db (clearFilter col s) hg rfl h2

/-- C5 witness: filtering three jobs to the queue-a prefix and clearing the
filter again, with the default page size, yields the matching counts
exactly. -/
theorem c5_filter_reset_witness :
    (setFilter fW5 initialState).page = 0 ∧ (clearFilter queueCol initialState).page = 0 ∧
    (resolve dbW3 (setFilter fW5 initialState)).1.length =
      (filterJobs (setFilter fW5 initialState).filters dbW3).length ∧
    (resolve dbW3 (clearFilter queueCol initialState)).1.length =
      (filterJobs (clearFilter queueCol initialState).filters dbW3).length :=
  c5_filter_reset initialState fW5 queueCol dbW3 rfl (by decide) (by decide)

/-- C5 counterexample: with page size 1, a filter matching two jobs resolves
to one displayed row, not to the number of jobs satisfying the filter
predicate - pagination caps the resolved row count, so the claim as stated
fails. -/
theorem c5_pagination_caps_rows :
    sC5.page = 0 ∧
    (filterJobs sC5.filters dbW3).length = 2 ∧
    (resolve dbW3 sC5).1.length = 1 ∧
    (resolve dbW3 sC5).1.length ≠ (filterJobs sC5.filters dbW3).length := by
  decide

/-- C6: resolving a selected group path for the cancel confirmation counts
exactly the non-terminal jobs under that group - terminal-state jobs are
excluded - and 500 Queued plus 1000 Pending plus 1500 Running jobs under one
queue value yield a confirmation count of 3000. -/
theorem c6_cancel_count :
    (∀ (db : List Job) (p : GroupPath),
        groupCancelCount db p =
          (db.filter (fun j => pathMatches p j && !isTerminal j.state)).length) ∧
    groupCancelCount db3000 [(queueCol, q1Str)] = 3000 := by
  refine ⟨groupCancelCount_eq, ?_⟩
  rw [groupCancelCount_eq]
  simp only [db3000, List.filter_append, List.length_append]
  rw [List.filter_replicate, List.filter_replicate, List.filter_replicate]
  rw [if_pos (by decide), if_pos (by decide), if_pos (by decide)]
  rw [List.length_replicate, List.length_replicate, List.length_replicate]

/-- C7: toggling expansion of a path whose parent path is nonempty and not
itself expanded fails with the InvalidExpansionPath condition instead of
silently extending the Expansion Set, and the expansion step preserves the
invariant that every member of the Expansion Set has all of its proper
nonempty prefixes expanded. -/
theorem c7_invalid_expansion :
    (∀ (s : TableState) (p : GroupPath), p.dropLast ≠ [] → p.dropLast ∉ s.expanded →
        toggleExpand p s = .error .invalidExpansionPath) ∧
    (∀ (s : TableState) (p : GroupPath), expansionInv s →
        expansionInv (step (.toggleExpandA p) s)) :=
  ⟨toggleExpand_invalid, toggleExpand_preserves_inv⟩

/-- C7 witness: expanding a depth-two path in the initial state, where its
parent is not expanded, is rejected; the invariant survives the step. -/
theorem c7_invalid_expansion_witness :
    toggleExpand pW7 initialState = .error .invalidExpansionPath ∧
      expansionInv (step (.toggleExpandA pW7) initialState) :=
  ⟨c7_invalid_expansion.1 initialState pW7 (by decide) (by decide),
   c7_invalid_expansion.2 initialState pW7
     (by intro p hp q hq h1 h2; simp [initialState] at hp)⟩

/-- C8: a refresh re-resolves from the unchanged TableState: refreshing twice
equals refreshing once, the authoritative state is untouched, and the
displayed row count is the same both times. -/
theorem c8_refresh_idempotent (db : List Job) (v : ViewState) :
    refresh db (refresh db v) = refresh db v ∧
    (refresh db v).table = v.table ∧
    (refresh db (refresh db v)).rows.length = (refresh db v).rows.length :=
  ⟨rfl, rfl, rfl⟩

/-- C9: in the job detail side-panel, the Logs and Commands tabs are disabled
exactly when the job's lifecycle state is Queued, while the Details, Result
and Yaml tabs are enabled for every job state. -/
theorem c9_sidebar_tabs (st : JobState) :
    (tabDisabled .logs st = true ↔ st = .queued) ∧
    (tabDisabled .commands st = true ↔ st = .queued) ∧
    tabDisabled .jobDetails st = false ∧
    tabDisabled .jobResult st = false ∧
    tabDisabled .yaml st = false := by
  cases st <;> exact ⟨by decide, by decide, rfl, rfl, rfl⟩

/-- C10: while resizing, the width callback fires only with a width strictly
between 350 and 1920 pixels, and a mouse position producing a width outside
that open interval leaves the reported sidebar width unchanged. -/
theorem c10_resize_bounds (resizing : Bool) (bodyWidth bodyLeft x w v : Int) :
    (handleMouseMove resizing bodyWidth bodyLeft x = some v → 350 < v ∧ v < 1920) ∧
    (handleMouseMove resizing bodyWidth bodyLeft x = none →
      widthAfter resizing bodyWidth bodyLeft x w = w) := by
  constructor
  · intro h
    cases resizing with
    | false => exact absurd h (by simp [handleMouseMove])
    | true =>
      by_cases hc : 350 < bodyWidth - (x - bodyLeft) ∧ bodyWidth - (x - bodyLeft) < 1920
      · have hv : bodyWidth - (x - bodyLeft) = v := by
          have h2 := h
          rw [handleMouseMove, if_pos rfl, if_pos hc] at h2
          exact Option.some.inj h2
        rw [← hv]
        exact hc
      · rw [handleMouseMove, if_pos rfl, if_neg hc] at h
        exact absurd h (by simp)
  · intro h
    simp [widthAfter, h]

/-- C10 witness: a drag to x = 100 with a 2000-pixel body reports width 1900,
inside the open interval; a drag to x = 1900 would produce width 100 and
leaves the reported width unchanged. -/
theorem c10_resize_bounds_witness :
    ((350 : Int) < 1900 ∧ (1900 : Int) < 1920) ∧
      widthAfter true 2000 0 1900 500 = 500 :=
  ⟨(c10_resize_bounds true 2000 0 100 500 1900).1 (by decide),
   (c10_resize_bounds true 2000 0 1900 500 0).2 (by decide)⟩

end Armada
